import Mathlib

/-!
Shallow embedding of the whereinmaginhawa validation-and-indexing core and of the
web routes the claims touch.  Pure functions from the TypeScript sources are
translated to executable Lean definitions; strings are modelled as Lean `String`
(lists of characters) and JavaScript UTF-16 code units as `Nat`.
-/

namespace Maginhawa

/-! ## Character and string predicates -/

/-- ASCII lowercase letter or digit, the character class `[a-z0-9]` of the slug
regex in validate-place.ts. -/
def isLowerAlnum (c : Char) : Bool :=
  (48 ≤ c.toNat && c.toNat ≤ 57) || (97 ≤ c.toNat && c.toNat ≤ 122)

/-- The JavaScript regex class `\w`, i.e. `[A-Za-z0-9_]` (ASCII only). -/
def isWordChar (c : Char) : Bool :=
  (48 ≤ c.toNat && c.toNat ≤ 57) || (65 ≤ c.toNat && c.toNat ≤ 90) ||
  (97 ≤ c.toNat && c.toNat ≤ 122) || c == '_'

/-- ASCII whitespace matched by the JavaScript regex class `\s` (the non-ASCII
whitespace code points that `\s` also matches are not representable inputs we
reason about; they fall outside every claim). -/
def isJsSpace (c : Char) : Bool :=
  c == ' ' || c == '\t' || c == '\n' || c == '\r' || c == '\x0b' || c == '\x0c'

/-- Decides the regex `^\d{2}:\d{2}$` used for operating-hours times in
validate-place.ts. -/
def isHHMM (s : String) : Bool :=
  match s.data with
  | [a, b, c, d, e] => a.isDigit && b.isDigit && c == ':' && d.isDigit && e.isDigit
  | _ => false

/-- Hexadecimal digit (either case). -/
def isHexChar (c : Char) : Bool :=
  c.isDigit || (97 ≤ c.toNat && c.toNat ≤ 102) || (65 ≤ c.toNat && c.toNat ≤ 70)

/-- Split a character list on a separator character (model of String.split). -/
def splitOnChar (sep : Char) : List Char → List (List Char)
  | [] => [[]]
  | c :: cs =>
    let rest := splitOnChar sep cs
    if c == sep then [] :: rest
    else
      match rest with
      | [] => [[c]]
      | r :: rs => (c :: r) :: rs

/-- Models the zod `uuid` format check of validate-place.ts: five hyphen-joined
hexadecimal groups of lengths 8-4-4-4-12. -/
def isUuid (s : String) : Bool :=
  match splitOnChar '-' s.data with
  | [g1, g2, g3, g4, g5] =>
    g1.length == 8 && g2.length == 4 && g3.length == 4 && g4.length == 4 &&
    g5.length == 12 && (g1 ++ g2 ++ g3 ++ g4 ++ g5).all isHexChar
  | _ => false

/-- Helper for `isAbsoluteUrl`: scans scheme characters until a colon. -/
def schemeThenColon : List Char → Bool
  | [] => false
  | c :: cs =>
    if c == ':' then true
    else (c.isAlphanum || c == '+' || c == '-' || c == '.') && schemeThenColon cs

/-- Models the zod `url` check (the string must parse as a WHATWG absolute URL,
i.e. `new URL(s)` succeeds): an ASCII-letter-initial scheme followed by a colon.
In particular the empty string is not a valid URL. -/
def isAbsoluteUrl (s : String) : Bool :=
  match s.data with
  | [] => false
  | c :: cs => c.isAlpha && schemeThenColon cs

/-- Simplified model of the zod `email` format check: exactly one at-sign with a
nonempty local part and a nonempty domain containing a dot. -/
def isEmailLike (s : String) : Bool :=
  match splitOnChar '@' s.data with
  | [localPart, domain] =>
    localPart.length > 0 && domain.length > 0 && domain.contains '.'
  | _ => false

/-- Helper for `isIsoDatetime`: one or more digits followed by a final Z. -/
def digitsThenZ : List Char → Bool
  | [] => false
  | ['Z'] => true
  | c :: cs => c.isDigit && digitsThenZ cs

/-- Helper for `isIsoDatetime`: the regex tail `(\.\d+)?Z`. -/
def fracThenZ : List Char → Bool
  | ['Z'] => true
  | '.' :: c :: cs => c.isDigit && digitsThenZ cs
  | _ => false

/-- Models the default zod `datetime` check of validate-place.ts:
`^\d{4}-\d{2}-\d{2}T\d{2}:\d{2}:\d{2}(\.\d+)?Z$`. -/
def isIsoDatetime (s : String) : Bool :=
  match s.data with
  | y1 :: y2 :: y3 :: y4 :: '-' :: m1 :: m2 :: '-' :: d1 :: d2 :: 'T' ::
      h1 :: h2 :: ':' :: n1 :: n2 :: ':' :: s1 :: s2 :: rest =>
    y1.isDigit && y2.isDigit && y3.isDigit && y4.isDigit && m1.isDigit &&
    m2.isDigit && d1.isDigit && d2.isDigit && h1.isDigit && h2.isDigit &&
    n1.isDigit && n2.isDigit && s1.isDigit && s2.isDigit && fracThenZ rest
  | _ => false

/-- DFA for the anchored regex `A+(-A+)*` over an abstract character class `A`:
`seen` records whether the current segment already contains a class character.
Instantiated with `isLowerAlnum` this decides the slug pattern
`^[a-z0-9]+(?:-[a-z0-9]+)*$` of validate-place.ts. -/
def segmentsMatch (isA : Char → Bool) : List Char → Bool → Bool
  | [], seen => seen
  | c :: cs, seen =>
    if isA c then segmentsMatch isA cs true
    else if c == '-' then seen && segmentsMatch isA cs false
    else false

/-- The kebab-case slug pattern `^[a-z0-9]+(?:-[a-z0-9]+)*$` from the Schema
Validator. -/
def matchesKebab (s : String) : Bool :=
  segmentsMatch isLowerAlnum s.data false

/-- The slug pattern widened with underscores: `^[a-z0-9_]+(-[a-z0-9_]+)*$`. -/
def matchesKebabUnderscore (s : String) : Bool :=
  segmentsMatch (fun c => isLowerAlnum c || c == '_') s.data false

/-- Model of String.prototype.endsWith used by the batch scripts to select
record files. -/
def strEndsWith (s pat : String) : Bool :=
  pat.data.isSuffixOf s.data

/-! ## generateSlug (place-creation route) -/

/-- Replaces every maximal run of characters satisfying `p` by the single
character `rep`; the flag tracks whether the scan is inside such a run.  Model
of a global regex replace of runs by a single replacement character. -/
def collapseRunsAux (p : Char → Bool) (rep : Char) : Bool → List Char → List Char
  | _, [] => []
  | inRun, c :: cs =>
    if p c then
      if inRun then collapseRunsAux p rep true cs
      else rep :: collapseRunsAux p rep true cs
    else c :: collapseRunsAux p rep false cs

/-- Replaces every maximal run of characters satisfying `p` by `rep`. -/
def collapseRuns (p : Char → Bool) (rep : Char) (l : List Char) : List Char :=
  collapseRunsAux p rep false l

/-- Drops characters satisfying `p` from both ends (model of trim and of the
regex replace `^-+|-+$` → empty). -/
def trimChars (p : Char → Bool) (l : List Char) : List Char :=
  ((l.dropWhile p).reverse.dropWhile p).reverse

/-- generateSlug from the place-creation route: lowercase, trim, strip
`[^\w\s-]`, turn whitespace runs into hyphens, collapse hyphen runs, strip
leading and trailing hyphens.  toLowerCase is modelled per character via
`Char.toLower` (exact on ASCII, which is all that survives the `\w` filter). -/
def generateSlug (name : String) : String :=
  let step1 := name.data.map Char.toLower
  let step2 := trimChars isJsSpace step1
  let step3 := step2.filter (fun c => isWordChar c || isJsSpace c || c == '-')
  let step4 := collapseRuns isJsSpace '-' step3
  let step5 := collapseRuns (fun c => c == '-') '-' step4
  let step6 := trimChars (fun c => c == '-') step5
  String.mk step6

/-! ## Constant-time comparison (csrf library) -/

/-- timingSafeEqual from the CSRF library, over strings represented as their
sequences of UTF-16 code units (`charCodeAt` values): unequal lengths short out
to false, otherwise the XORs of corresponding units are OR-accumulated and
compared with zero. -/
def timingSafeEqual (a b : List Nat) : Bool :=
  if a.length != b.length then false
  else ((a.zip b).foldl (fun result p => result ||| (p.1 ^^^ p.2)) 0) == 0

/-- verifyCsrfToken from the CSRF library: delegates to `timingSafeEqual`. -/
def verifyCsrfToken (secret token : List Nat) : Bool :=
  timingSafeEqual secret token

/-! ## Schema Validator (scripts/validate-place.ts) -/

/-- One element of a zod error path: an object key or an array index. -/
inductive PathElem
  | key : String → PathElem
  | idx : Nat → PathElem
deriving Repr, DecidableEq

/-- One zod issue: the path of the offending field and its message. -/
structure FieldError where
  path : List PathElem
  message : String
deriving Repr, DecidableEq

/-- A parsed operatingHours day entry.  JSON keys `open` and `close` are the
fields `openTime` and `closeTime` (`open` is a Lean keyword); a missing key is
`none`. -/
structure HoursEntry where
  openTime : Option String
  closeTime : Option String
  closed : Option Bool
deriving Repr, DecidableEq

/-- The zod message for a missing required field. -/
def requiredMsg : String := "Required"

/-- Check of the required HH:MM string fields of `operatingHoursSchema`. -/
def checkTimeField (path : List PathElem) (v : Option String) : List FieldError :=
  match v with
  | none => [⟨path, requiredMsg⟩]
  | some s => if isHHMM s then [] else [⟨path, "Time must be in HH:MM format"⟩]

/-- operatingHoursSchema from validate-place.ts applied to one day entry:
`open` and `close` are required strings matching `^\d{2}:\d{2}$`; `closed` is
an optional boolean carrying no check. -/
def validateHoursEntry (day : String) (e : HoursEntry) : List FieldError :=
  checkTimeField [.key day, .key "open"] e.openTime ++
  checkTimeField [.key day, .key "close"] e.closeTime

/-- operatingHoursSchema over the whole record (a map from day names to
entries, modelled as an association list). -/
def validateOperatingHoursMap (oh : List (String × HoursEntry)) : List FieldError :=
  (oh.map (fun p => validateHoursEntry p.1 p.2)).flatten

/-- Re-roots errors of a nested schema under an object field, as zod does. -/
def nestErrors (field : String) (es : List FieldError) : List FieldError :=
  es.map (fun e => ⟨PathElem.key field :: e.path, e.message⟩)

/-- The raw JSON shape of a place record as read by the Schema Validator:
every key may be missing (`none`).  Numbers are modelled as rationals. -/
structure PlaceData where
  id : Option String
  name : Option String
  slug : Option String
  description : Option String
  address : Option String
  phone : Option String
  email : Option String
  website : Option String
  logoUrl : Option String
  coverImageUrl : Option String
  photosUrls : Option (List String)
  operatingHours : Option (List (String × HoursEntry))
  priceRange : Option String
  paymentMethods : Option (List String)
  tags : Option (List String)
  amenities : Option (List String)
  cuisineTypes : Option (List String)
  specialties : Option (List String)
  latitude : Option Rat
  longitude : Option Rat
  createdAt : Option String
  updatedAt : Option String
  rating : Option Rat
  reviewCount : Option Int
  verified : Option Bool
deriving Repr, DecidableEq

/-- A required string field with one format/min-length check. -/
def checkRequiredString (field : String) (ok : String → Bool) (msg : String)
    (v : Option String) : List FieldError :=
  match v with
  | none => [⟨[.key field], requiredMsg⟩]
  | some s => if ok s then [] else [⟨[.key field], msg⟩]

/-- An optional string field that also accepts the empty-string literal
(chained as optional-or-empty-literal in the source). -/
def checkOptionalOrEmpty (field : String) (ok : String → Bool) (msg : String)
    (v : Option String) : List FieldError :=
  match v with
  | none => []
  | some s => if s == "" then [] else if ok s then [] else [⟨[.key field], msg⟩]

/-- The element checks of `photosUrls: z.array(z.string().url(...))`,
iterating with explicit indices starting at `i`. -/
def checkPhotosUrlsFrom (i : Nat) : List String → List FieldError
  | [] => []
  | s :: rest =>
    (if isAbsoluteUrl s then [] else
      [⟨[.key "photosUrls", .idx i], "Invalid photo URL"⟩]) ++
    checkPhotosUrlsFrom (i + 1) rest

/-- Full check of the `photosUrls` array field. -/
def checkPhotosUrls (l : List String) : List FieldError :=
  checkPhotosUrlsFrom 0 l

/-- The slug checks: zod runs both the min-length and the regex check and
reports every failure. -/
def checkSlug (v : Option String) : List FieldError :=
  match v with
  | none => [⟨[.key "slug"], requiredMsg⟩]
  | some s =>
    (if s.length ≥ 1 then [] else [⟨[.key "slug"], "Slug is required"⟩]) ++
    (if matchesKebab s then [] else [⟨[.key "slug"], "Slug must be kebab-case"⟩])

/-- A required array field with no element checks. -/
def checkRequiredArray (field : String) (v : Option (List String)) : List FieldError :=
  match v with
  | none => [⟨[.key field], requiredMsg⟩]
  | some _ => []

/-- A numeric field constrained to a closed interval, when present.  Messages
follow the default zod too-small/too-big wording. -/
def checkRange (field : String) (lo hi : Rat) (v : Option Rat) : List FieldError :=
  match v with
  | none => []
  | some x =>
    (if x < lo then
      [⟨[.key field], "Number must be greater than or equal to " ++ toString lo⟩]
     else []) ++
    (if x > hi then
      [⟨[.key field], "Number must be less than or equal to " ++ toString hi⟩]
     else [])

/-- The priceRange enum check; the custom message also stands in for the
missing-field case, as in the source. -/
def checkPriceRange (v : Option String) : List FieldError :=
  match v with
  | none => [⟨[.key "priceRange"], "Price range must be $, $$, $$$, or $$$$"⟩]
  | some s =>
    if s == "$" || s == "$$" || s == "$$$" || s == "$$$$" then []
    else [⟨[.key "priceRange"], "Price range must be $, $$, $$$, or $$$$"⟩]

/-- The `photosUrls` field: a required array of URL strings. -/
def checkPhotosUrlsField (v : Option (List String)) : List FieldError :=
  match v with
  | none => [⟨[.key "photosUrls"], requiredMsg⟩]
  | some l => checkPhotosUrls l

/-- The `operatingHours` field: a required record of day entries. -/
def checkOperatingHoursField (v : Option (List (String × HoursEntry))) :
    List FieldError :=
  match v with
  | none => [⟨[.key "operatingHours"], requiredMsg⟩]
  | some oh => nestErrors "operatingHours" (validateOperatingHoursMap oh)

/-- The `cuisineTypes` field: a required array with at least one element. -/
def checkCuisineTypes (v : Option (List String)) : List FieldError :=
  match v with
  | none => [⟨[.key "cuisineTypes"], requiredMsg⟩]
  | some l =>
    if l.length ≥ 1 then []
    else [⟨[.key "cuisineTypes"], "At least one cuisine type is required"⟩]

/-- The `reviewCount` field: an optional non-negative integer. -/
def checkReviewCount (v : Option Int) : List FieldError :=
  match v with
  | none => []
  | some n =>
    if n < 0 then
      [⟨[.key "reviewCount"], "Number must be greater than or equal to 0"⟩]
    else []

/-- placeSchema from validate-place.ts: every field check runs and all issues
are collected in declaration order. -/
def validatePlace (p : PlaceData) : List FieldError :=
  checkRequiredString "id" isUuid
    "ID must be a valid UUID (e.g., 550e8400-e29b-41d4-a716-446655440000)" p.id ++
  checkRequiredString "name" (fun s => s.length ≥ 1) "Name is required" p.name ++
  checkSlug p.slug ++
  checkRequiredString "description" (fun s => s.length ≥ 10)
    "Description must be at least 10 characters" p.description ++
  checkRequiredString "address" (fun s => s.length ≥ 1) "Address is required" p.address ++
  checkOptionalOrEmpty "email" isEmailLike "Invalid email format" p.email ++
  checkOptionalOrEmpty "website" isAbsoluteUrl "Invalid URL format" p.website ++
  checkOptionalOrEmpty "logoUrl" isAbsoluteUrl "Invalid logo URL" p.logoUrl ++
  checkOptionalOrEmpty "coverImageUrl" isAbsoluteUrl "Invalid cover image URL"
    p.coverImageUrl ++
  checkPhotosUrlsField p.photosUrls ++
  checkOperatingHoursField p.operatingHours ++
  checkPriceRange p.priceRange ++
  checkRequiredArray "paymentMethods" p.paymentMethods ++
  checkRequiredArray "tags" p.tags ++
  checkRequiredArray "amenities" p.amenities ++
  checkCuisineTypes p.cuisineTypes ++
  checkRequiredArray "specialties" p.specialties ++
  checkRange "latitude" (-90) 90 p.latitude ++
  checkRange "longitude" (-180) 180 p.longitude ++
  checkRequiredString "createdAt" isIsoDatetime "Invalid createdAt timestamp" p.createdAt ++
  checkRequiredString "updatedAt" isIsoDatetime "Invalid updatedAt timestamp" p.updatedAt ++
  checkRange "rating" 0 5 p.rating ++
  checkReviewCount p.reviewCount

/-- Result of validating one file, as returned by validatePlaceFile. -/
structure ValidationResult where
  valid : Bool
  errors : List FieldError
  filePath : String
deriving Repr, DecidableEq

/-- validatePlaceFile from validate-place.ts.  The file content is the parse
outcome of the raw text: `none` when JSON.parse throws a SyntaxError, in which
case a single root-level error (empty path, parse message) is reported. -/
def validatePlaceFile (filePath : String) (content : Option PlaceData) :
    ValidationResult :=
  match content with
  | none => ⟨false, [⟨[], "JSON parse error"⟩], filePath⟩
  | some p =>
    let errs := validatePlace p
    if errs.isEmpty then ⟨true, [], filePath⟩ else ⟨false, errs, filePath⟩

/-- validateAllPlaces from validate-place.ts: selects the .json entries of the
directory listing and validates each file independently. -/
def validateAllPlaces (files : List (String × Option PlaceData)) :
    List ValidationResult :=
  (files.filter (fun f => strEndsWith f.1 ".json")).map
    (fun f => validatePlaceFile f.1 f.2)

/-! ## Stats Builder (scripts/build-stats.ts) -/

/-- Lexicographic comparison of character lists by code point; model of the
default JavaScript string ordering used by `Array.prototype.sort()` (which
compares UTF-16 code units; identical on the code points below 0x10000 that
the data contains). -/
def lexLe : List Char → List Char → Bool
  | [], _ => true
  | _ :: _, [] => false
  | a :: as, b :: bs =>
    if a.toNat < b.toNat then true
    else if b.toNat < a.toNat then false
    else lexLe as bs

/-- Boolean string comparison underlying the sort of the builders. -/
def strLeB (a b : String) : Bool :=
  lexLe a.data b.data

/-- The ordering of `strLeB` as a relation, for sorting lemmas. -/
def StringLe (a b : String) : Prop :=
  strLeB a b = true

instance : DecidableRel StringLe :=
  fun a b => instDecidableEqBool (strLeB a b) true

/-- Helper for `dedupKeepFirst`: emits values not yet seen, tracking the seen
set. -/
def dedupSeen (seen : List String) : List String → List String
  | [] => []
  | s :: rest =>
    if s ∈ seen then dedupSeen seen rest
    else s :: dedupSeen (s :: seen) rest

/-- Model of JavaScript `Set` insertion followed by iteration: keeps the first
occurrence of every value, in first-insertion order. -/
def dedupKeepFirst (l : List String) : List String :=
  dedupSeen [] l

/-- `Array.from(set).sort()` of the builders: sort the distinct values. -/
def sortStrings (l : List String) : List String :=
  List.insertionSort StringLe l

/-- The fields of a place record that build-stats.ts reads; any of them may be
missing from the JSON (`none`). -/
structure StatsPlace where
  priceRange : Option String
  paymentMethods : Option (List String)
  cuisineTypes : Option (List String)
  amenities : Option (List String)
  tags : Option (List String)
deriving Repr, DecidableEq

/-- The stats.json artifact shape of build-stats.ts. -/
structure Stats where
  totalPlaces : Nat
  uniqueCuisines : Nat
  uniqueAmenities : Nat
  uniqueTags : Nat
  priceRanges : List String
  paymentMethods : List String
  cuisineTypes : List String
  amenities : List String
  tags : List String
  generatedAt : String
deriving Repr, DecidableEq

/-- The priceRange values collected by build-stats.ts: the guard
`if (place.priceRange)` skips missing and empty-string values (JavaScript
truthiness). -/
def collectedPriceRanges (places : List StatsPlace) : List String :=
  places.filterMap (fun p =>
    match p.priceRange with
    | some s => if s != "" then some s else none
    | none => none)

/-- The values of one array-valued categorical field across all records; a
missing array contributes nothing. -/
def collectedField (proj : StatsPlace → Option (List String))
    (places : List StatsPlace) : List String :=
  (places.map (fun p => (proj p).getD [])).flatten

/-- Directory-entry filter of build-stats.ts:
keep names ending in .json other than README.md. -/
def isRecordFileName (name : String) : Bool :=
  strEndsWith name ".json" && name != "README.md"

/-- buildStats from build-stats.ts over an abstract filesystem: `none` is a
missing places directory, otherwise the directory listing is a list of
(file name, parse outcome) pairs, a parse outcome being `none` when reading or
parsing the file failed.  Fatal exits (`process.exit(1)` before any artifact
write) are `Except.error`; `now` is the generation timestamp. -/
def buildStats (now : String) (dir : Option (List (String × Option StatsPlace))) :
    Except String Stats :=
  match dir with
  | none => Except.error "Places directory not found"
  | some listing =>
    let files := listing.filter (fun f => isRecordFileName f.1)
    if files.length == 0 then Except.error "No place files found in directory"
    else
      let errorCount := (files.filter (fun f => f.2.isNone)).length
      if errorCount > 0 then Except.error "Failed to process files"
      else
        let places := files.filterMap (fun f => f.2)
        Except.ok
          { totalPlaces := places.length
            uniqueCuisines :=
              (dedupKeepFirst (collectedField StatsPlace.cuisineTypes places)).length
            uniqueAmenities :=
              (dedupKeepFirst (collectedField StatsPlace.amenities places)).length
            uniqueTags :=
              (dedupKeepFirst (collectedField StatsPlace.tags places)).length
            priceRanges := sortStrings (dedupKeepFirst (collectedPriceRanges places))
            paymentMethods :=
              sortStrings (dedupKeepFirst (collectedField StatsPlace.paymentMethods places))
            cuisineTypes :=
              sortStrings (dedupKeepFirst (collectedField StatsPlace.cuisineTypes places))
            amenities :=
              sortStrings (dedupKeepFirst (collectedField StatsPlace.amenities places))
            tags := sortStrings (dedupKeepFirst (collectedField StatsPlace.tags places))
            generatedAt := now }

/-- The successfully parsed records of a directory listing, in file order (the
`places` accumulated by buildStats). -/
def statsPlacesOf (files : List (String × Option StatsPlace)) : List StatsPlace :=
  (files.filter (fun f => isRecordFileName f.1)).filterMap (fun f => f.2)

/-! ## The application Place type and the update route -/

/-- One contributors-log entry (types/place.ts shape, as constructed by the
routes). -/
structure Contributor where
  name : String
  email : Option String
  github : Option String
  contributedAt : String
  action : String
deriving Repr, DecidableEq

/-- The application Place record, with the fields the update route constructs;
optional fields are `Option`. -/
structure Place where
  id : String
  name : String
  slug : String
  description : String
  address : String
  phone : Option String
  email : Option String
  website : Option String
  logoUrl : Option String
  coverImageUrl : Option String
  photosUrls : List String
  operatingHours : List (String × HoursEntry)
  priceRange : String
  paymentMethods : List String
  tags : List String
  amenities : List String
  cuisineTypes : List String
  specialties : List String
  latitude : Option Rat
  longitude : Option Rat
  createdAt : String
  updatedAt : String
  createdBy : Option String
  contributors : Option (List Contributor)
deriving Repr, DecidableEq

/-- The validated body of an update submission (updatePlaceRequestSchema with
zod defaults already applied: the defaulted arrays are plain lists). -/
structure UpdateRequest where
  id : String
  slug : String
  name : String
  description : String
  address : String
  operatingHours : List (String × HoursEntry)
  priceRange : String
  cuisineTypes : List String
  phone : Option String
  email : Option String
  website : Option String
  logoUrl : Option String
  coverImageUrl : Option String
  photosUrls : List String
  paymentMethods : List String
  tags : List String
  amenities : List String
  specialties : List String
  latitude : Option Rat
  longitude : Option Rat
  contributorName : String
  contributorEmail : Option String
  contributorGithub : Option String
deriving Repr, DecidableEq

/-- Model of the JavaScript `x || undefined` applied to an optional string:
an empty string is falsy and becomes undefined. -/
def emptyToNone (o : Option String) : Option String :=
  match o with
  | some "" => none
  | x => x

/-- Model of defaulting a missing or empty createdBy to Anonymous. -/
def orAnonymous (o : Option String) : String :=
  match o with
  | none => "Anonymous"
  | some "" => "Anonymous"
  | some s => s

/-- The contributor entry the update route appends. -/
def mkUpdatedContributor (data : UpdateRequest) (now : String) : Contributor :=
  { name := data.contributorName
    email := emptyToNone data.contributorEmail
    github := emptyToNone data.contributorGithub
    contributedAt := now
    action := "updated" }

/-- The Place object built by the POST handler of the update route once validation
passed and the existing place was found: field sources follow the object
literal in the route (identity fields from the submission, createdAt/createdBy
from the existing record, contributors extended by one entry, updatedAt set to
`now`). -/
def applyUpdate (data : UpdateRequest) (existingPlace : Place) (now : String) :
    Place :=
  { id := data.id
    name := data.name
    slug := data.slug
    description := data.description
    address := data.address
    phone := data.phone
    email := emptyToNone data.email
    website := emptyToNone data.website
    logoUrl := emptyToNone data.logoUrl
    coverImageUrl := emptyToNone data.coverImageUrl
    photosUrls := data.photosUrls
    operatingHours := data.operatingHours
    priceRange := data.priceRange
    paymentMethods := data.paymentMethods
    tags := data.tags
    amenities := data.amenities
    cuisineTypes := data.cuisineTypes
    specialties := data.specialties
    latitude := data.latitude
    longitude := data.longitude
    createdAt := existingPlace.createdAt
    updatedAt := now
    createdBy := some (orAnonymous existingPlace.createdBy)
    contributors :=
      some (existingPlace.contributors.getD [] ++ [mkUpdatedContributor data now]) }

/-! ## Index Builder -/

/-- The Index projection of a record (spec section 3): identity, descriptive
and categorization fields only. -/
structure IndexEntry where
  id : String
  slug : String
  name : String
  description : String
  address : String
  tags : List String
  amenities : List String
  cuisineTypes : List String
  specialties : List String
deriving Repr, DecidableEq

/-- Modelled from the spec: the Index Builder script is not among the provided
sources (only the CI workflow documentation mentions the index build step), so
the projection from record to IndexProjection follows the spec
section 3 wording: identity + descriptive + categorization fields only,
omitting contact/media/hours/location. -/
def index_of (p : Place) : IndexEntry :=
  { id := p.id
    slug := p.slug
    name := p.name
    description := p.description
    address := p.address
    tags := p.tags
    amenities := p.amenities
    cuisineTypes := p.cuisineTypes
    specialties := p.specialties }

/-- Modelled from the spec: the Index Builder contract of section 4.3 —
given the records read from the collection (`none` when the directory is
missing or unreadable), fail loudly when the collection is missing or empty,
otherwise emit the projections in input order, never re-sorted. -/
def buildIndex (records : Option (List Place)) : Except String (List IndexEntry) :=
  match records with
  | none => Except.error "Records directory not found"
  | some l =>
    if l.length == 0 then Except.error "No place records found"
    else Except.ok (l.map index_of)

/-! ## Concrete example data used by witnesses and counterexamples -/

/-- A fully valid raw place record. -/
def examplePlaceData : PlaceData :=
  { id := some "550e8400-e29b-41d4-a716-446655440000"
    name := some "Rodics Diner"
    slug := some "rodics-diner"
    description := some "A beloved diner on Maginhawa street."
    address := some "123 Maginhawa St"
    phone := none
    email := some ""
    website := some "https://example.com"
    logoUrl := none
    coverImageUrl := none
    photosUrls := some ["https://example.com/a.jpg"]
    operatingHours := some [("monday", ⟨some "09:00", some "18:00", none⟩)]
    priceRange := some "$$"
    paymentMethods := some ["cash"]
    tags := some ["diner"]
    amenities := some ["wifi"]
    cuisineTypes := some ["filipino"]
    specialties := some ["tapsilog"]
    latitude := none
    longitude := none
    createdAt := some "2024-01-01T00:00:00Z"
    updatedAt := some "2024-01-02T00:00:00Z"
    rating := none
    reviewCount := none
    verified := none }

/-- `examplePlaceData` with an empty-string photo URL. -/
def placeDataEmptyPhoto : PlaceData :=
  { examplePlaceData with photosUrls := some [""] }

/-- A concrete application place record. -/
def examplePlace : Place :=
  { id := "550e8400-e29b-41d4-a716-446655440000"
    name := "Rodics Diner"
    slug := "rodics-diner"
    description := "A beloved diner on Maginhawa street."
    address := "123 Maginhawa St"
    phone := none
    email := none
    website := none
    logoUrl := none
    coverImageUrl := none
    photosUrls := []
    operatingHours := [("monday", ⟨some "09:00", some "18:00", none⟩)]
    priceRange := "$$"
    paymentMethods := ["cash"]
    tags := ["diner"]
    amenities := ["wifi"]
    cuisineTypes := ["filipino"]
    specialties := ["tapsilog"]
    latitude := none
    longitude := none
    createdAt := "2024-01-01T00:00:00Z"
    updatedAt := "2024-01-02T00:00:00Z"
    createdBy := some "alice"
    contributors :=
      some [⟨"alice", none, none, "2024-01-01T00:00:00Z", "created"⟩] }

/-- An update submission whose id differs from the id of the stored record. -/
def exampleUpdateRequest : UpdateRequest :=
  { id := "11111111-1111-4111-8111-111111111111"
    slug := "rodics-diner"
    name := "Rodics Diner"
    description := "A beloved diner on Maginhawa street."
    address := "123 Maginhawa St"
    operatingHours := [("monday", ⟨some "09:00", some "18:00", none⟩)]
    priceRange := "$$"
    cuisineTypes := ["filipino"]
    phone := none
    email := none
    website := none
    logoUrl := none
    coverImageUrl := none
    photosUrls := []
    paymentMethods := []
    tags := []
    amenities := []
    specialties := []
    latitude := none
    longitude := none
    contributorName := "bob"
    contributorEmail := some ""
    contributorGithub := none }

/-- Two parsed stats records realizing the Scenario D cuisines of the spec. -/
def scenarioDFiles : List (String × Option StatsPlace) :=
  [("p1.json", some ⟨some "$$", some ["cash"], some ["filipino", "italian"], some [], some []⟩),
   ("p2.json", some ⟨some "$", some [], some ["italian", "korean"], some [], some []⟩)]

/-- `examplePlaceData` with the required name field missing. -/
def placeDataNoName : PlaceData :=
  { examplePlaceData with name := none }

/-- A directory listing with one malformed file and one valid sibling. -/
def exampleBatchFiles : List (String × Option PlaceData) :=
  [("bad.json", none), ("rodics-diner.json", some examplePlaceData)]

/-! ## Ordering lemmas for the string sort -/

theorem lexLe_cons (a b : Char) (as bs : List Char) :
    lexLe (a :: as) (b :: bs) = true ↔
      a.toNat < b.toNat ∨ (a.toNat = b.toNat ∧ lexLe as bs = true) := by
  simp only [lexLe]
  split_ifs with h1 h2
  · simp [h1]
  · apply iff_of_false
    · simp
    · rintro (h | ⟨h, _⟩) <;> omega
  · have he : a.toNat = b.toNat := by omega
    constructor
    · intro h
      exact Or.inr ⟨he, h⟩
    · rintro (h | ⟨_, h⟩)
      · omega
      · exact h

theorem lexLe_total : ∀ a b : List Char, lexLe a b = true ∨ lexLe b a = true
  | [], _ => Or.inl rfl
  | _ :: _, [] => Or.inr rfl
  | a :: as, b :: bs => by
    rcases Nat.lt_trichotomy a.toNat b.toNat with h | h | h
    · exact Or.inl ((lexLe_cons a b as bs).mpr (Or.inl h))
    · rcases lexLe_total as bs with ih | ih
      · exact Or.inl ((lexLe_cons a b as bs).mpr (Or.inr ⟨h, ih⟩))
      · exact Or.inr ((lexLe_cons b a bs as).mpr (Or.inr ⟨h.symm, ih⟩))
    · exact Or.inr ((lexLe_cons b a bs as).mpr (Or.inl h))

theorem lexLe_trans :
    ∀ a b c : List Char, lexLe a b = true → lexLe b c = true → lexLe a c = true
  | [], _, _ => by
    intro _ _
    rfl
  | _ :: _, [], _ => by
    intro h _
    simp [lexLe] at h
  | _ :: _, _ :: _, [] => by
    intro _ h
    simp [lexLe] at h
  | a :: as, b :: bs, c :: cs => by
    intro h1 h2
    rw [lexLe_cons] at h1 h2 ⊢
    rcases h1 with h1 | ⟨h1e, h1r⟩
    · rcases h2 with h2 | ⟨h2e, _⟩
      · exact Or.inl (by omega)
      · exact Or.inl (by omega)
    · rcases h2 with h2 | ⟨h2e, h2r⟩
      · exact Or.inl (by omega)
      · exact Or.inr ⟨by omega, lexLe_trans as bs cs h1r h2r⟩

instance : IsTotal String StringLe :=
  ⟨fun a b => lexLe_total a.data b.data⟩

instance : IsTrans String StringLe :=
  ⟨fun a b c => lexLe_trans a.data b.data c.data⟩

/-! ## Lemmas about deduplication and sorting -/

theorem mem_dedupSeen (x : String) :
    ∀ (l : List String) (seen : List String),
      x ∈ dedupSeen seen l ↔ x ∈ l ∧ x ∉ seen := by
  intro l
  induction l with
  | nil => simp [dedupSeen]
  | cons s rest ih =>
    intro seen
    simp only [dedupSeen]
    by_cases hs : s ∈ seen
    · rw [if_pos hs, ih]
      constructor
      · rintro ⟨hr, hn⟩
        exact ⟨List.mem_cons_of_mem _ hr, hn⟩
      · rintro ⟨hc, hn⟩
        rcases List.mem_cons.mp hc with rfl | hr
        · exact absurd hs hn
        · exact ⟨hr, hn⟩
    · rw [if_neg hs]
      simp only [List.mem_cons, ih]
      constructor
      · rintro (rfl | ⟨hr, hn⟩)
        · exact ⟨Or.inl rfl, hs⟩
        · exact ⟨Or.inr hr, fun hx => hn (Or.inr hx)⟩
      · rintro ⟨rfl | hr, hn⟩
        · exact Or.inl rfl
        · by_cases hxs : x = s
          · exact Or.inl hxs
          · refine Or.inr ⟨hr, ?_⟩
            rintro (rfl | hx)
            · exact hxs rfl
            · exact hn hx

theorem nodup_dedupSeen :
    ∀ (l : List String) (seen : List String), (dedupSeen seen l).Nodup := by
  intro l
  induction l with
  | nil =>
    intro seen
    simp [dedupSeen]
  | cons s rest ih =>
    intro seen
    simp only [dedupSeen]
    by_cases hs : s ∈ seen
    · rw [if_pos hs]
      exact ih seen
    · rw [if_neg hs]
      refine List.nodup_cons.mpr ⟨fun hmem => ?_, ih (s :: seen)⟩
      exact ((mem_dedupSeen s rest (s :: seen)).mp hmem).2 (List.mem_cons_self s seen)

theorem mem_dedupKeepFirst (x : String) (l : List String) :
    x ∈ dedupKeepFirst l ↔ x ∈ l := by
  unfold dedupKeepFirst
  rw [mem_dedupSeen]
  simp

theorem nodup_dedupKeepFirst (l : List String) : (dedupKeepFirst l).Nodup :=
  nodup_dedupSeen l []

theorem sorted_sortStrings (l : List String) :
    List.Sorted StringLe (sortStrings l) :=
  List.sorted_insertionSort StringLe l

theorem perm_sortStrings (l : List String) : List.Perm (sortStrings l) l :=
  List.perm_insertionSort StringLe l

theorem nodup_sortStrings (l : List String) (h : l.Nodup) :
    (sortStrings l).Nodup :=
  (perm_sortStrings l).symm.nodup h

theorem mem_sortStrings (x : String) (l : List String) :
    x ∈ sortStrings l ↔ x ∈ l :=
  (perm_sortStrings l).mem_iff

/-- The sorted-deduplicated value list of the Stats Builder is duplicate-free,
sorted, and has exactly the values of the input. -/
theorem sortedDedup_spec (v : List String) :
    (sortStrings (dedupKeepFirst v)).Nodup ∧
      List.Sorted StringLe (sortStrings (dedupKeepFirst v)) ∧
      ∀ x, x ∈ sortStrings (dedupKeepFirst v) ↔ x ∈ v := by
  refine ⟨nodup_sortStrings _ (nodup_dedupKeepFirst v), sorted_sortStrings _, fun x => ?_⟩
  rw [mem_sortStrings, mem_dedupKeepFirst]

/-! ## Lemmas for the constant-time comparison -/

theorem nat_or_eq_zero (a b : Nat) : a ||| b = 0 ↔ a = 0 ∧ b = 0 := by
  constructor
  · intro h
    have key : ∀ i, a.testBit i = false ∧ b.testBit i = false := by
      intro i
      have hcong := congrArg (fun n => Nat.testBit n i) h
      simp only [Nat.testBit_or, Nat.zero_testBit, Bool.or_eq_false_iff] at hcong
      exact hcong
    constructor
    · exact Nat.eq_of_testBit_eq fun i => by
        rw [(key i).1, Nat.zero_testBit]
    · exact Nat.eq_of_testBit_eq fun i => by
        rw [(key i).2, Nat.zero_testBit]
  · rintro ⟨rfl, rfl⟩
    rfl

theorem foldl_or_eq_zero (l : List Nat) :
    ∀ init : Nat,
      (l.foldl (fun r x => r ||| x) init = 0 ↔ init = 0 ∧ ∀ x ∈ l, x = 0) := by
  induction l with
  | nil => simp
  | cons y ys ih =>
    intro init
    simp only [List.foldl_cons, ih, nat_or_eq_zero, List.mem_cons]
    constructor
    · rintro ⟨⟨h1, h2⟩, h3⟩
      exact ⟨h1, fun x hx => hx.elim (fun hxy => hxy ▸ h2) (h3 x)⟩
    · rintro ⟨h1, h2⟩
      exact ⟨⟨h1, h2 y (Or.inl rfl)⟩, fun x hx => h2 x (Or.inr hx)⟩

theorem zip_xor_zero_iff :
    ∀ s t : List Nat, s.length = t.length →
      ((∀ p ∈ s.zip t, p.1 ^^^ p.2 = 0) ↔ s = t)
  | [], [], _ => by simp
  | [], _ :: _, h => by simp at h
  | _ :: _, [], h => by simp at h
  | a :: as, b :: bs, h => by
    have hlen : as.length = bs.length := by simpa using h
    constructor
    · intro hall
      have hab : a = b :=
        Nat.xor_eq_zero.mp (hall (a, b) (List.mem_cons_self _ _))
      have htail : as = bs :=
        (zip_xor_zero_iff as bs hlen).mp
          (fun p hp => hall p (List.mem_cons_of_mem _ hp))
      rw [hab, htail]
    · intro heq
      cases heq
      intro p hp
      rcases List.mem_cons.mp hp with rfl | hp'
      · exact Nat.xor_self a
      · exact (zip_xor_zero_iff as as rfl).mpr rfl p hp'

/-! ## Claim theorems -/

/-- C9: verifyCsrfToken (via timingSafeEqual) decides exactly equality of the
two strings, represented as their sequences of UTF-16 code units. -/
theorem verifyCsrfToken_iff_eq (s t : List Nat) :
    verifyCsrfToken s t = true ↔ s = t := by
  unfold verifyCsrfToken timingSafeEqual
  by_cases h : s.length = t.length
  · rw [if_neg (by simp [h])]
    rw [show (s.zip t).foldl (fun result p => result ||| (p.1 ^^^ p.2)) 0 =
          ((s.zip t).map (fun p => p.1 ^^^ p.2)).foldl (fun r x => r ||| x) 0 by
        rw [List.foldl_map]]
    rw [beq_iff_eq, foldl_or_eq_zero]
    simp only [List.mem_map, true_and]
    rw [← zip_xor_zero_iff s t h]
    constructor
    · intro hz p hp
      exact hz _ ⟨p, hp, rfl⟩
    · rintro hz x ⟨p, hp, rfl⟩
      exact hz p hp
  · rw [if_pos (by simp [h])]
    apply iff_of_false
    · simp
    · rintro rfl
      exact h rfl

/-- C8 counterexample: an accepted update submission whose id differs from the
id of the stored record yields an updated record whose id is the submitted one, not
the stored one, although the submission addresses the same slug. -/
theorem updateRoute_id_changed :
    exampleUpdateRequest.slug = examplePlace.slug ∧
      (applyUpdate exampleUpdateRequest examplePlace "2025-01-01T00:00:00Z").id ≠
        examplePlace.id := by
  exact ⟨rfl, by decide⟩

/-- C8 amended: the update route preserves the createdAt of the existing record,
keeps createdBy when present and nonempty (defaulting it to Anonymous
otherwise), sets updatedAt to the current time, appends exactly one
contributor entry with action updated while leaving prior entries unchanged,
and takes id (like all submitted fields) from the submission, so the stored id
is preserved only when the submission echoes it. -/
theorem updateRoute_frame (data : UpdateRequest) (existing : Place) (now : String) :
    (applyUpdate data existing now).createdAt = existing.createdAt ∧
      (applyUpdate data existing now).createdBy =
        some (orAnonymous existing.createdBy) ∧
      (applyUpdate data existing now).updatedAt = now ∧
      (applyUpdate data existing now).id = data.id ∧
      (applyUpdate data existing now).contributors =
        some (existing.contributors.getD [] ++ [mkUpdatedContributor data now]) ∧
      (mkUpdatedContributor data now).action = "updated" :=
  ⟨rfl, rfl, rfl, rfl, rfl, rfl⟩

/-- C1 counterexample: the operatingHoursSchema of the Schema Validator rejects a
day entry with closed set to true and no open/close, reporting both times as
required. -/
theorem hoursEntry_closed_only_rejected :
    validateHoursEntry "monday" ⟨none, none, some true⟩ =
      [⟨[.key "monday", .key "open"], "Required"⟩,
       ⟨[.key "monday", .key "close"], "Required"⟩] ∧
      validateHoursEntry "monday" ⟨none, none, some true⟩ ≠ [] := by
  constructor
  · rfl
  · decide

/-- C1 amended: for every present day key, operatingHoursSchema accepts the
entry exactly when open and close are both present and match the HH:MM
pattern, regardless of the closed flag; the closed flag never exempts an entry
from the open/close requirement. -/
theorem hoursEntry_times_always_required (day : String) (e : HoursEntry) :
    (validateHoursEntry day e = [] ↔
      (∃ o, e.openTime = some o ∧ isHHMM o = true) ∧
        (∃ c, e.closeTime = some c ∧ isHHMM c = true)) ∧
      ∀ b : Option Bool,
        validateHoursEntry day { e with closed := b } = validateHoursEntry day e := by
  constructor
  · rcases e with ⟨o, c, cl⟩
    unfold validateHoursEntry checkTimeField
    cases o with
    | none => simp
    | some ov =>
      cases c with
      | none => simp
      | some cv =>
        by_cases ho : isHHMM ov <;> by_cases hc : isHHMM cv <;>
          simp [ho, hc]
  · intro b
    rfl

/-! ## Lemmas for the photosUrls checks -/

theorem checkPhotosUrlsFrom_eq_nil (l : List String) :
    ∀ k : Nat, (checkPhotosUrlsFrom k l = [] ↔ ∀ s ∈ l, isAbsoluteUrl s = true) := by
  induction l with
  | nil => simp [checkPhotosUrlsFrom]
  | cons s rest ih =>
    intro k
    simp only [checkPhotosUrlsFrom, List.append_eq_nil, ih, List.mem_cons]
    by_cases hs : isAbsoluteUrl s
    · simp only [if_pos hs, eq_self_iff_true, true_and]
      constructor
      · rintro h x (rfl | hx)
        · exact hs
        · exact h x hx
      · intro h x hx
        exact h x (Or.inr hx)
    · simp only [if_neg hs]
      apply iff_of_false
      · rintro ⟨h, _⟩
        simp at h
      · intro h
        exact hs (h s (Or.inl rfl))

theorem checkPhotosUrlsFrom_mem_err (l : List String) :
    ∀ (k i : Nat) (hi : i < l.length),
      isAbsoluteUrl (l.get ⟨i, hi⟩) = false →
      FieldError.mk [.key "photosUrls", .idx (k + i)] "Invalid photo URL" ∈
        checkPhotosUrlsFrom k l := by
  induction l with
  | nil =>
    intro k i hi
    simp at hi
  | cons s rest ih =>
    intro k i hi hbad
    cases i with
    | zero =>
      have hbads : isAbsoluteUrl s = false := hbad
      simp only [checkPhotosUrlsFrom, Nat.add_zero]
      rw [if_neg (by simp [hbads])]
      exact List.mem_append_left _ (List.mem_singleton.mpr rfl)
    | succ j =>
      have hj : j < rest.length := Nat.lt_of_succ_lt_succ hi
      have hmem := ih (k + 1) j hj hbad
      have harith : k + 1 + j = k + (j + 1) := by omega
      rw [harith] at hmem
      exact List.mem_append_right _ hmem

/-- C5 counterexample: the Schema Validator rejects an empty-string photo URL
(photosUrls has no empty-string escape, unlike website/logoUrl/coverImageUrl),
while the otherwise identical record with a real URL is accepted. -/
theorem photosUrls_empty_string_rejected :
    isAbsoluteUrl "" = false ∧
      (validatePlaceFile "rodics-diner.json" (some placeDataEmptyPhoto)).valid = false ∧
      FieldError.mk [.key "photosUrls", .idx 0] "Invalid photo URL" ∈
        (validatePlaceFile "rodics-diner.json" (some placeDataEmptyPhoto)).errors ∧
      validatePlaceFile "rodics-diner.json" (some examplePlaceData) =
        ⟨true, [], "rodics-diner.json"⟩ := by
  refine ⟨rfl, by decide, by decide, by decide⟩

/-- C5 amended: the photosUrls element checks pass exactly when every element
is a syntactically valid absolute URL — the empty string is not accepted — and
every offending index is reported as a field error at photosUrls.i. -/
theorem photosUrls_accept_iff (l : List String) (i : Nat) (hi : i < l.length)
    (hbad : isAbsoluteUrl (l.get ⟨i, hi⟩) = false) :
    (checkPhotosUrls l = [] ↔ ∀ s ∈ l, isAbsoluteUrl s = true) ∧
      FieldError.mk [.key "photosUrls", .idx i] "Invalid photo URL" ∈
        checkPhotosUrls l := by
  constructor
  · exact checkPhotosUrlsFrom_eq_nil l 0
  · have := checkPhotosUrlsFrom_mem_err l 0 i hi hbad
    simpa using this

/-- Witness for `photosUrls_accept_iff` at the input [""] and index 0. -/
theorem photosUrls_accept_iff_witness :
    (checkPhotosUrls [""] = [] ↔ ∀ s ∈ [""], isAbsoluteUrl s = true) ∧
      FieldError.mk [.key "photosUrls", .idx 0] "Invalid photo URL" ∈
        checkPhotosUrls [""] :=
  photosUrls_accept_iff [""] 0 (by decide) (by decide)

/-! ## Field errors carry nonempty paths -/

theorem path_checkRequiredString (f : String) (ok : String → Bool) (msg : String)
    (v : Option String) (e : FieldError) (he : e ∈ checkRequiredString f ok msg v) :
    e.path ≠ [] := by
  cases v with
  | none =>
    simp only [checkRequiredString, List.mem_singleton] at he
    simp [he]
  | some s =>
    by_cases h : ok s
    · simp [checkRequiredString, h] at he
    · simp only [checkRequiredString, if_neg h, List.mem_singleton] at he
      simp [he]

theorem path_checkOptionalOrEmpty (f : String) (ok : String → Bool) (msg : String)
    (v : Option String) (e : FieldError) (he : e ∈ checkOptionalOrEmpty f ok msg v) :
    e.path ≠ [] := by
  cases v with
  | none => simp [checkOptionalOrEmpty] at he
  | some s =>
    simp only [checkOptionalOrEmpty] at he
    split_ifs at he
    · simp at he
    · simp at he
    · simp only [List.mem_singleton] at he
      simp [he]

theorem path_checkSlug (v : Option String) (e : FieldError) (he : e ∈ checkSlug v) :
    e.path ≠ [] := by
  cases v with
  | none =>
    simp only [checkSlug, List.mem_singleton] at he
    simp [he]
  | some s =>
    simp only [checkSlug, List.mem_append] at he
    rcases he with h | h <;> [skip; skip] <;>
      · split_ifs at h
        · simp at h
        · simp only [List.mem_singleton] at h
          simp [h]

theorem path_checkRequiredArray (f : String) (v : Option (List String))
    (e : FieldError) (he : e ∈ checkRequiredArray f v) : e.path ≠ [] := by
  cases v with
  | none =>
    simp only [checkRequiredArray, List.mem_singleton] at he
    simp [he]
  | some l => simp [checkRequiredArray] at he

theorem path_checkRange (f : String) (lo hi : Rat) (v : Option Rat)
    (e : FieldError) (he : e ∈ checkRange f lo hi v) : e.path ≠ [] := by
  cases v with
  | none => simp [checkRange] at he
  | some x =>
    simp only [checkRange, List.mem_append] at he
    rcases he with h | h <;>
      · split_ifs at h
        · simp only [List.mem_singleton] at h
          simp [h]
        · simp at h

theorem path_checkPriceRange (v : Option String) (e : FieldError)
    (he : e ∈ checkPriceRange v) : e.path ≠ [] := by
  cases v with
  | none =>
    simp only [checkPriceRange, List.mem_singleton] at he
    simp [he]
  | some s =>
    simp only [checkPriceRange] at he
    split_ifs at he
    · simp at he
    · simp only [List.mem_singleton] at he
      simp [he]

theorem path_checkPhotosUrlsFrom (l : List String) :
    ∀ (k : Nat) (e : FieldError), e ∈ checkPhotosUrlsFrom k l → e.path ≠ [] := by
  induction l with
  | nil =>
    intro k e he
    simp [checkPhotosUrlsFrom] at he
  | cons s rest ih =>
    intro k e he
    simp only [checkPhotosUrlsFrom, List.mem_append] at he
    rcases he with h | h
    · split_ifs at h
      · simp at h
      · simp only [List.mem_singleton] at h
        simp [h]
    · exact ih (k + 1) e h

theorem path_checkPhotosUrlsField (v : Option (List String)) (e : FieldError)
    (he : e ∈ checkPhotosUrlsField v) : e.path ≠ [] := by
  cases v with
  | none =>
    simp only [checkPhotosUrlsField, List.mem_singleton] at he
    simp [he]
  | some l => exact path_checkPhotosUrlsFrom l 0 e he

theorem path_nestErrors (f : String) (es : List FieldError) (e : FieldError)
    (he : e ∈ nestErrors f es) : e.path ≠ [] := by
  simp only [nestErrors, List.mem_map] at he
  rcases he with ⟨e0, _, rfl⟩
  simp

theorem path_checkOperatingHoursField (v : Option (List (String × HoursEntry)))
    (e : FieldError) (he : e ∈ checkOperatingHoursField v) : e.path ≠ [] := by
  cases v with
  | none =>
    simp only [checkOperatingHoursField, List.mem_singleton] at he
    simp [he]
  | some oh => exact path_nestErrors _ _ e he

theorem path_checkCuisineTypes (v : Option (List String)) (e : FieldError)
    (he : e ∈ checkCuisineTypes v) : e.path ≠ [] := by
  cases v with
  | none =>
    simp only [checkCuisineTypes, List.mem_singleton] at he
    simp [he]
  | some l =>
    simp only [checkCuisineTypes] at he
    split_ifs at he
    · simp at he
    · simp only [List.mem_singleton] at he
      simp [he]

theorem path_checkReviewCount (v : Option Int) (e : FieldError)
    (he : e ∈ checkReviewCount v) : e.path ≠ [] := by
  cases v with
  | none => simp [checkReviewCount] at he
  | some n =>
    simp only [checkReviewCount] at he
    split_ifs at he
    · simp only [List.mem_singleton] at he
      simp [he]
    · simp at he

set_option maxHeartbeats 800000 in
/-- Every issue the Schema Validator reports for a well-formed record names a
field: its path is nonempty, so the root-level parse error is distinct from
every field validation error. -/
theorem validatePlace_path_ne_nil (p : PlaceData) (e : FieldError)
    (he : e ∈ validatePlace p) : e.path ≠ [] := by
  simp only [validatePlace, List.mem_append, or_assoc] at he
  rcases he with h|h|h|h|h|h|h|h|h|h|h|h|h|h|h|h|h|h|h|h|h|h|h
  all_goals
    first
      | exact path_checkRequiredString _ _ _ _ _ h
      | exact path_checkSlug _ _ h
      | exact path_checkOptionalOrEmpty _ _ _ _ _ h
      | exact path_checkPhotosUrlsField _ _ h
      | exact path_checkOperatingHoursField _ _ h
      | exact path_checkPriceRange _ _ h
      | exact path_checkRequiredArray _ _ _ h
      | exact path_checkCuisineTypes _ _ h
      | exact path_checkRange _ _ _ _ _ h
      | exact path_checkReviewCount _ _ h

/-- C6: a file whose content is not well-formed JSON yields exactly one
root-level error with an empty path and a parse message (distinct from field
errors, whose paths are nonempty), and the batch validator computes each
result of each file independently, so the failure of one record never aborts the
others. -/
theorem parse_error_single_root (fp : String) (p : PlaceData) (e : FieldError)
    (he : e ∈ validatePlace p) (files : List (String × Option PlaceData)) (i : Nat) :
    validatePlaceFile fp none = ⟨false, [⟨[], "JSON parse error"⟩], fp⟩ ∧
      e.path ≠ [] ∧
      (validateAllPlaces files).get? i =
        ((files.filter (fun f => strEndsWith f.1 ".json")).get? i).map
          (fun f => validatePlaceFile f.1 f.2) := by
  refine ⟨rfl, validatePlace_path_ne_nil p e he, ?_⟩
  unfold validateAllPlaces
  exact List.get?_map _ _ i

/-- Witness for `parse_error_single_root`: a record missing its name, the
resulting Required error, and a two-file directory listing. -/
theorem parse_error_single_root_witness :
    validatePlaceFile "bad.json" none =
        ⟨false, [⟨[], "JSON parse error"⟩], "bad.json"⟩ ∧
      (FieldError.mk [.key "name"] "Required").path ≠ [] ∧
      (validateAllPlaces exampleBatchFiles).get? 0 =
        ((exampleBatchFiles.filter (fun f => strEndsWith f.1 ".json")).get? 0).map
          (fun f => validatePlaceFile f.1 f.2) :=
  parse_error_single_root "bad.json" placeDataNoName ⟨[.key "name"], "Required"⟩
    (by decide) exampleBatchFiles 0

/-! ## Stats Builder theorems -/

theorem length_filterMap_all_some {α β : Type} (l : List α) (f : α → Option β)
    (h : ∀ x ∈ l, (f x).isSome = true) : (l.filterMap f).length = l.length := by
  induction l with
  | nil => rfl
  | cons x rest ih =>
    rcases Option.isSome_iff_exists.mp (h x (List.mem_cons_self _ _)) with ⟨y, hy⟩
    rw [List.filterMap_cons, hy]
    simp only [List.length_cons]
    rw [ih (fun z hz => h z (List.mem_cons_of_mem _ hz))]

/-- C7: on a directory of valid records the Stats Builder succeeds; every
categorical output array is the lexicographically sorted duplicate-free list
of the values observed across all records, the unique counts are the sizes of
those arrays, totalPlaces is the record count, two runs differ only in
generatedAt, and the Scenario D input of the spec yields cuisineTypes
[filipino, italian, korean] with uniqueCuisines 3. -/
theorem statsBuilder_sorted_deterministic (now now2 : String)
    (dir : Option (List (String × Option StatsPlace)))
    (files : List (String × Option StatsPlace))
    (hne : files.filter (fun f => isRecordFileName f.1) ≠ [])
    (hall : ∀ f ∈ files.filter (fun f => isRecordFileName f.1), (f.2).isSome = true) :
    (∃ s : Stats,
      buildStats now (some files) = Except.ok s ∧
      s.generatedAt = now ∧
      s.totalPlaces = (files.filter (fun f => isRecordFileName f.1)).length ∧
      s.priceRanges =
        sortStrings (dedupKeepFirst (collectedPriceRanges (statsPlacesOf files))) ∧
      s.paymentMethods =
        sortStrings (dedupKeepFirst
          (collectedField StatsPlace.paymentMethods (statsPlacesOf files))) ∧
      s.cuisineTypes =
        sortStrings (dedupKeepFirst
          (collectedField StatsPlace.cuisineTypes (statsPlacesOf files))) ∧
      s.amenities =
        sortStrings (dedupKeepFirst
          (collectedField StatsPlace.amenities (statsPlacesOf files))) ∧
      s.tags =
        sortStrings (dedupKeepFirst
          (collectedField StatsPlace.tags (statsPlacesOf files))) ∧
      s.uniqueCuisines = s.cuisineTypes.length ∧
      s.uniqueAmenities = s.amenities.length ∧
      s.uniqueTags = s.tags.length) ∧
    (∀ v : List String,
      (sortStrings (dedupKeepFirst v)).Nodup ∧
        List.Sorted StringLe (sortStrings (dedupKeepFirst v)) ∧
        ∀ x, x ∈ sortStrings (dedupKeepFirst v) ↔ x ∈ v) ∧
    buildStats now2 dir = (buildStats now dir).map (fun s => { s with generatedAt := now2 }) ∧
    buildStats now (some scenarioDFiles) =
      Except.ok ⟨2, 3, 0, 0, ["$", "$$"], ["cash"],
        ["filipino", "italian", "korean"], [], [], now⟩ := by
  refine ⟨?_, sortedDedup_spec, ?_, rfl⟩
  · have h0 : ¬((files.filter (fun f => isRecordFileName f.1)).length == 0) = true := by
      simpa [List.length_eq_zero] using hne
    have herr :
        (files.filter (fun f => isRecordFileName f.1)).filter (fun f => f.2.isNone) = [] := by
      rw [List.filter_eq_nil_iff]
      intro f hf
      rcases Option.isSome_iff_exists.mp (hall f hf) with ⟨y, hy⟩
      simp [hy]
    have heq : buildStats now (some files) = Except.ok
        { totalPlaces := (statsPlacesOf files).length
          uniqueCuisines :=
            (dedupKeepFirst (collectedField StatsPlace.cuisineTypes (statsPlacesOf files))).length
          uniqueAmenities :=
            (dedupKeepFirst (collectedField StatsPlace.amenities (statsPlacesOf files))).length
          uniqueTags :=
            (dedupKeepFirst (collectedField StatsPlace.tags (statsPlacesOf files))).length
          priceRanges :=
            sortStrings (dedupKeepFirst (collectedPriceRanges (statsPlacesOf files)))
          paymentMethods :=
            sortStrings (dedupKeepFirst
              (collectedField StatsPlace.paymentMethods (statsPlacesOf files)))
          cuisineTypes :=
            sortStrings (dedupKeepFirst
              (collectedField StatsPlace.cuisineTypes (statsPlacesOf files)))
          amenities :=
            sortStrings (dedupKeepFirst
              (collectedField StatsPlace.amenities (statsPlacesOf files)))
          tags :=
            sortStrings (dedupKeepFirst
              (collectedField StatsPlace.tags (statsPlacesOf files)))
          generatedAt := now } := by
      simp only [buildStats]
      rw [if_neg h0, if_neg (by simp [herr])]
      rfl
    refine ⟨_, heq, rfl, ?_, rfl, rfl, rfl, rfl, rfl, ?_, ?_, ?_⟩
    · show (statsPlacesOf files).length = (files.filter (fun f => isRecordFileName f.1)).length
      unfold statsPlacesOf
      exact length_filterMap_all_some (files.filter (fun f => isRecordFileName f.1))
        (fun f => f.2) hall
    · show (dedupKeepFirst _).length = (sortStrings (dedupKeepFirst _)).length
      exact ((perm_sortStrings _).length_eq).symm
    · show (dedupKeepFirst _).length = (sortStrings (dedupKeepFirst _)).length
      exact ((perm_sortStrings _).length_eq).symm
    · show (dedupKeepFirst _).length = (sortStrings (dedupKeepFirst _)).length
      exact ((perm_sortStrings _).length_eq).symm
  · cases dir with
    | none => rfl
    | some listing =>
      simp only [buildStats]
      by_cases h1 : ((listing.filter (fun f => isRecordFileName f.1)).length == 0) = true
      · rw [if_pos h1, if_pos h1]
        rfl
      · rw [if_neg h1, if_neg h1]
        by_cases h2 :
            ((listing.filter (fun f => isRecordFileName f.1)).filter
              (fun f => f.2.isNone)).length > 0
        · rw [if_pos h2, if_pos h2]
          rfl
        · rw [if_neg h2, if_neg h2]
          rfl

/-- Witness for `statsBuilder_sorted_deterministic` at the Scenario D input. -/
theorem statsBuilder_sorted_deterministic_witness :
    (∃ s : Stats,
      buildStats "t" (some scenarioDFiles) = Except.ok s ∧
      s.generatedAt = "t" ∧
      s.totalPlaces = (scenarioDFiles.filter (fun f => isRecordFileName f.1)).length ∧
      s.priceRanges =
        sortStrings (dedupKeepFirst (collectedPriceRanges (statsPlacesOf scenarioDFiles))) ∧
      s.paymentMethods =
        sortStrings (dedupKeepFirst
          (collectedField StatsPlace.paymentMethods (statsPlacesOf scenarioDFiles))) ∧
      s.cuisineTypes =
        sortStrings (dedupKeepFirst
          (collectedField StatsPlace.cuisineTypes (statsPlacesOf scenarioDFiles))) ∧
      s.amenities =
        sortStrings (dedupKeepFirst
          (collectedField StatsPlace.amenities (statsPlacesOf scenarioDFiles))) ∧
      s.tags =
        sortStrings (dedupKeepFirst
          (collectedField StatsPlace.tags (statsPlacesOf scenarioDFiles))) ∧
      s.uniqueCuisines = s.cuisineTypes.length ∧
      s.uniqueAmenities = s.amenities.length ∧
      s.uniqueTags = s.tags.length) ∧
    (∀ v : List String,
      (sortStrings (dedupKeepFirst v)).Nodup ∧
        List.Sorted StringLe (sortStrings (dedupKeepFirst v)) ∧
        ∀ x, x ∈ sortStrings (dedupKeepFirst v) ↔ x ∈ v) ∧
    buildStats "u" (some scenarioDFiles) =
      (buildStats "t" (some scenarioDFiles)).map (fun s => { s with generatedAt := "u" }) ∧
    buildStats "t" (some scenarioDFiles) =
      Except.ok ⟨2, 3, 0, 0, ["$", "$$"], ["cash"],
        ["filipino", "italian", "korean"], [], [], "t"⟩ :=
  statsBuilder_sorted_deterministic "t" "u" (some scenarioDFiles) scenarioDFiles
    (by decide) (by decide)

/-! ## Index Builder theorems -/

/-- C2: the Index Builder emits one entry per record (225 records give 225
entries), each entry is the projection of its record onto the identity,
descriptive and categorization fields, and the projection is insensitive to
operatingHours and phone, so no entry carries them. -/
theorem indexBuilder_projection (records : List Place) (h : records.length = 225)
    (p : Place) (hours : List (String × HoursEntry)) (ph : Option String) :
    buildIndex (some records) = Except.ok (records.map index_of) ∧
      (records.map index_of).length = 225 ∧
      index_of { p with operatingHours := hours, phone := ph } = index_of p := by
  refine ⟨?_, by simp [h], rfl⟩
  simp only [buildIndex]
  rw [if_neg (by simp [h])]

/-- Witness for `indexBuilder_projection` on 225 copies of a concrete record. -/
theorem indexBuilder_projection_witness :
    buildIndex (some (List.replicate 225 examplePlace)) =
        Except.ok ((List.replicate 225 examplePlace).map index_of) ∧
      ((List.replicate 225 examplePlace).map index_of).length = 225 ∧
      index_of { examplePlace with operatingHours := [], phone := some "555" } =
        index_of examplePlace :=
  indexBuilder_projection (List.replicate 225 examplePlace)
    (by rw [List.length_replicate]) examplePlace [] (some "555")

/-- C3: both builders abort with an error and produce no artifact when the
records directory is missing or contains no record files (the Stats Builder
from the source, the Index Builder from its spec-modelled contract). -/
theorem builders_reject_empty (now : String)
    (files : List (String × Option StatsPlace))
    (hnone : files.filter (fun f => isRecordFileName f.1) = []) :
    (∃ e, buildStats now none = Except.error e) ∧
      (∃ e, buildStats now (some files) = Except.error e) ∧
      (∃ e, buildIndex none = Except.error e) ∧
      (∃ e, buildIndex (some []) = Except.error e) := by
  refine ⟨⟨"Places directory not found", rfl⟩,
    ⟨"No place files found in directory", ?_⟩,
    ⟨"Records directory not found", rfl⟩, ⟨"No place records found", rfl⟩⟩
  simp only [buildStats]
  rw [if_pos (by simp [hnone])]

/-- Witness for `builders_reject_empty`: a listing with no .json entry. -/
theorem builders_reject_empty_witness :
    (∃ e, buildStats "t" none = Except.error e) ∧
      (∃ e, buildStats "t" (some [("notes.txt", none)]) = Except.error e) ∧
      (∃ e, buildIndex none = Except.error e) ∧
      (∃ e, buildIndex (some []) = Except.error e) :=
  builders_reject_empty "t" [("notes.txt", none)] (by decide)

/-- C4: the Index Builder emits entries in exactly the order the records were
read: the output is the elementwise projection of the input sequence, entry i
coming from record i, with no re-sorting. -/
theorem indexBuilder_preserves_order (records : List Place) (h : records ≠ [])
    (i : Nat) :
    buildIndex (some records) = Except.ok (records.map index_of) ∧
      (records.map index_of).get? i = (records.get? i).map index_of := by
  constructor
  · simp only [buildIndex]
    rw [if_neg (by simpa [List.length_eq_zero] using h)]
  · exact List.get?_map index_of records i

/-- Witness for `indexBuilder_preserves_order` on a one-record collection. -/
theorem indexBuilder_preserves_order_witness :
    buildIndex (some [examplePlace]) = Except.ok ([examplePlace].map index_of) ∧
      ([examplePlace].map index_of).get? 0 = ([examplePlace].get? 0).map index_of :=
  indexBuilder_preserves_order [examplePlace] (by decide) 0

/-! ## generateSlug shape lemmas -/

theorem char_toLower_toNat_of_upper (c : Char)
    (h : 65 ≤ c.toNat ∧ c.toNat ≤ 90) : (Char.toLower c).toNat = c.toNat + 32 := by
  unfold Char.toLower
  rw [if_pos ⟨h.1, h.2⟩]
  have hv : (c.toNat + 32).isValidChar := by
    have := h.2
    left
    omega
  unfold Char.ofNat
  rw [dif_pos hv]
  unfold Char.ofNatAux Char.toNat
  simp [UInt32.toNat, UInt32.ofNatCore]

theorem char_toLower_eq_of_not_upper (c : Char)
    (h : ¬(65 ≤ c.toNat ∧ c.toNat ≤ 90)) : Char.toLower c = c := by
  unfold Char.toLower
  rw [if_neg]
  omega

/-- The per-character lowercase map never produces an ASCII uppercase
letter. -/
theorem toLower_not_upper (c : Char) :
    ¬(65 ≤ (Char.toLower c).toNat ∧ (Char.toLower c).toNat ≤ 90) := by
  by_cases h : 65 ≤ c.toNat ∧ c.toNat ≤ 90
  · rw [char_toLower_toNat_of_upper c h]
    omega
  · rw [char_toLower_eq_of_not_upper c h]
    exact h

/-- A `\w` character in the image of the lowercase map is a lowercase
alphanumeric or an underscore. -/
theorem wordChar_toLower_allowed (c : Char)
    (hw : isWordChar (Char.toLower c) = true) :
    (isLowerAlnum (Char.toLower c) || (Char.toLower c == '_')) = true := by
  have hnu := toLower_not_upper c
  unfold isWordChar at hw
  unfold isLowerAlnum
  simp only [Bool.or_eq_true, Bool.and_eq_true, decide_eq_true_eq] at hw ⊢
  rcases hw with ((hd | hu) | hl) | he
  · exact Or.inl (Or.inl hd)
  · exact absurd hu hnu
  · exact Or.inl (Or.inr hl)
  · exact Or.inr he

theorem mem_collapseRunsAux (p : Char → Bool) (rep : Char) (l : List Char) :
    ∀ (b : Bool) (c : Char), c ∈ collapseRunsAux p rep b l →
      c = rep ∨ (c ∈ l ∧ p c = false) := by
  induction l with
  | nil =>
    intro b c hc
    simp [collapseRunsAux] at hc
  | cons d ds ih =>
    intro b c hc
    by_cases hp : p d = true
    · cases b with
      | true =>
        simp only [collapseRunsAux, if_pos hp, if_pos rfl] at hc
        rcases ih true c hc with h | ⟨h1, h2⟩
        · exact Or.inl h
        · exact Or.inr ⟨List.mem_cons_of_mem _ h1, h2⟩
      | false =>
        simp only [collapseRunsAux, if_pos hp] at hc
        rcases List.mem_cons.mp hc with rfl | hc'
        · exact Or.inl rfl
        · rcases ih true c hc' with h | ⟨h1, h2⟩
          · exact Or.inl h
          · exact Or.inr ⟨List.mem_cons_of_mem _ h1, h2⟩
    · simp only [collapseRunsAux, if_neg hp] at hc
      rcases List.mem_cons.mp hc with rfl | hc'
      · exact Or.inr ⟨List.mem_cons_self _ _, Bool.not_eq_true _ ▸ hp⟩
      · rcases ih false c hc' with h | ⟨h1, h2⟩
        · exact Or.inl h
        · exact Or.inr ⟨List.mem_cons_of_mem _ h1, h2⟩

theorem head_collapseRunsAux_true (p : Char → Bool) (rep : Char) (l : List Char) :
    ∀ c ∈ (collapseRunsAux p rep true l).head?, p c = false := by
  induction l with
  | nil =>
    intro c hc
    simp [collapseRunsAux] at hc
  | cons d ds ih =>
    intro c hc
    by_cases hp : p d = true
    · simp only [collapseRunsAux, if_pos hp, if_pos rfl] at hc
      exact ih c hc
    · simp only [collapseRunsAux, if_neg hp, List.head?_cons, Option.mem_def,
        Option.some.injEq] at hc
      subst hc
      exact Bool.not_eq_true _ ▸ hp

theorem chain_collapseRunsAux (p : Char → Bool) (rep : Char) (l : List Char) :
    ∀ b : Bool,
      List.Chain' (fun a c => ¬(p a = true ∧ p c = true)) (collapseRunsAux p rep b l) := by
  induction l with
  | nil =>
    intro b
    simp [collapseRunsAux]
  | cons d ds ih =>
    intro b
    by_cases hp : p d = true
    · cases b with
      | true =>
        simp only [collapseRunsAux, if_pos hp, if_pos rfl]
        exact ih true
      | false =>
        simp only [collapseRunsAux, if_pos hp]
        refine List.chain'_cons'.mpr ⟨fun y hy => ?_, ih true⟩
        have := head_collapseRunsAux_true p rep ds y hy
        rintro ⟨-, h2⟩
        rw [this] at h2
        exact Bool.false_ne_true h2
    · simp only [collapseRunsAux, if_neg hp]
      refine List.chain'_cons'.mpr ⟨fun y hy => ?_, ih false⟩
      rintro ⟨h1, -⟩
      exact hp h1

theorem head_dropWhile_not (p : Char → Bool) (l : List Char) :
    ∀ c ∈ (l.dropWhile p).head?, p c = false := by
  induction l with
  | nil =>
    intro c hc
    simp [List.dropWhile] at hc
  | cons d ds ih =>
    intro c hc
    by_cases hp : p d = true
    · rw [List.dropWhile_cons_of_pos hp] at hc
      exact ih c hc
    · rw [List.dropWhile_cons_of_neg hp] at hc
      simp only [List.head?_cons, Option.mem_def, Option.some.injEq] at hc
      subst hc
      exact Bool.not_eq_true _ ▸ hp

theorem getLast?_of_suffix {z w : List Char} (h : z <:+ w) (hz : z ≠ []) :
    w.getLast? = z.getLast? := by
  rcases h with ⟨t, rfl⟩
  rw [List.getLast?_append]
  rcases List.getLast?_isSome.mpr hz |> Option.isSome_iff_exists.mp with ⟨y, hy⟩
  rw [hy]
  rfl

/-- Properties of `trimChars`: the trimmed list is contained in the original,
keeps any symmetric adjacency invariant, and neither starts nor ends with a
trimmed character. -/
theorem trimChars_props (p : Char → Bool) (R : Char → Char → Prop)
    (hsymm : ∀ a b, R a b → R b a) (l : List Char) (hchain : List.Chain' R l) :
    (∀ c ∈ trimChars p l, c ∈ l) ∧
      List.Chain' R (trimChars p l) ∧
      (∀ c ∈ (trimChars p l).head?, p c = false) ∧
      (∀ c ∈ (trimChars p l).getLast?, p c = false) := by
  unfold trimChars
  have hy := List.dropWhile_suffix (l := l) p
  have hz := List.dropWhile_suffix (l := (l.dropWhile p).reverse) p
  refine ⟨?_, ?_, ?_, ?_⟩
  · intro c hc
    rw [List.mem_reverse] at hc
    have hc2 := hz.subset hc
    rw [List.mem_reverse] at hc2
    exact hy.subset hc2
  · have c1 : List.Chain' R (l.dropWhile p) := by
      rcases hy with ⟨t, ht⟩
      exact List.Chain'.right_of_append (ht ▸ hchain)
    have c2 : List.Chain' R (l.dropWhile p).reverse := by
      rw [List.chain'_reverse]
      exact c1.imp (fun a b h => hsymm a b h)
    have c3 : List.Chain' R ((l.dropWhile p).reverse.dropWhile p) := by
      rcases hz with ⟨t, ht⟩
      exact List.Chain'.right_of_append (ht ▸ c2)
    rw [List.chain'_reverse]
    exact c3.imp (fun a b h => hsymm a b h)
  · intro c hc
    rw [List.head?_reverse] at hc
    by_cases hznil : (l.dropWhile p).reverse.dropWhile p = []
    · rw [hznil] at hc
      simp at hc
    · rw [← getLast?_of_suffix hz hznil, List.getLast?_reverse] at hc
      exact head_dropWhile_not p l c hc
  · intro c hc
    rw [List.getLast?_reverse] at hc
    exact head_dropWhile_not p _ c hc

/-- Acceptance of the segment DFA: a nonempty list over the class and hyphens,
with no adjacent hyphens and no hyphen at either end, matches `A+(-A+)*`. -/
theorem segmentsMatch_of_props (isA : Char → Bool) (l : List Char) :
    ∀ seen : Bool,
      (∀ c ∈ l, isA c = true ∨ c = '-') →
      List.Chain' (fun a b => ¬(a = '-' ∧ b = '-')) l →
      (∀ c ∈ l.getLast?, c ≠ '-') →
      (seen = true ∨ ∀ c ∈ l.head?, c ≠ '-') →
      (l ≠ [] ∨ seen = true) →
      segmentsMatch isA l seen = true := by
  induction l with
  | nil =>
    intro seen _ _ _ _ hne
    rcases hne with h | h
    · exact absurd rfl h
    · simpa [segmentsMatch] using h
  | cons c cs ih =>
    intro seen hchars hchain hlast hhead _
    by_cases hA : isA c = true
    · simp only [segmentsMatch, if_pos hA]
      rcases List.eq_nil_or_concat cs with rfl | -
      · simp [segmentsMatch]
      · refine ih true (fun x hx => hchars x (List.mem_cons_of_mem _ hx))
          hchain.tail ?_ (Or.inl rfl) (Or.inr rfl)
        intro x hx
        rcases cs with - | ⟨d, ds⟩
        · simp at hx
        · rw [List.getLast?_cons_cons] at hlast
          exact hlast x hx
    · have hc : c = '-' := (hchars c (List.mem_cons_self _ _)).resolve_left hA
      subst hc
      have hseen : seen = true := by
        rcases hhead with h | h
        · exact h
        · exact absurd rfl (h '-' (by simp))
      subst hseen
      have hcs : cs ≠ [] := by
        rintro rfl
        exact absurd rfl (hlast '-' (by simp [List.getLast?]))
      simp only [segmentsMatch, if_neg hA, if_pos rfl, Bool.true_and]
      refine ih false (fun x hx => hchars x (List.mem_cons_of_mem _ hx))
        hchain.tail ?_ (Or.inr ?_) (Or.inl hcs)
      · intro x hx
        rcases cs with - | ⟨d, ds⟩
        · simp at hx
        · rw [List.getLast?_cons_cons] at hlast
          exact hlast x hx
      · intro x hx
        have := (List.chain'_cons'.mp hchain).1 x hx
        intro hx2
        exact this ⟨rfl, hx2⟩

/-- C10 counterexample: the slug generated from the name a_b keeps the
underscore (the regex class w retains it), fails the kebab-case pattern of
the Schema Validator, and is not empty. -/
theorem generateSlug_underscore_not_kebab :
    generateSlug "a_b" = "a_b" ∧ matchesKebab (generateSlug "a_b") = false ∧
      generateSlug "a_b" ≠ "" := by
  refine ⟨by decide, by decide, by decide⟩

/-- C10 amended: for every input name, generateSlug yields either the empty
string or a string matching the widened pattern with underscores,
`^[a-z0-9_]+(-[a-z0-9_]+)*$` — kebab-case once underscores are also
admitted as segment characters. -/
theorem generateSlug_kebab_underscore (name : String) :
    generateSlug name = "" ∨ matchesKebabUnderscore (generateSlug name) = true := by
  simp only [generateSlug]
  by_cases hF :
      trimChars (fun c => c == '-')
        (collapseRuns (fun c => c == '-') '-'
          (collapseRuns isJsSpace '-'
            ((trimChars isJsSpace (name.data.map Char.toLower)).filter
              (fun c => isWordChar c || isJsSpace c || c == '-')))) = []
  · left
    rw [hF]
  · right
    simp only [matchesKebabUnderscore]
    have hchain5 :
        List.Chain' (fun a b => ¬((a == '-') = true ∧ (b == '-') = true))
          (collapseRuns (fun c => c == '-') '-'
            (collapseRuns isJsSpace '-'
              ((trimChars isJsSpace (name.data.map Char.toLower)).filter
                (fun c => isWordChar c || isJsSpace c || c == '-')))) :=
      chain_collapseRunsAux (fun c => c == '-') '-' _ false
    have htrim := trimChars_props (fun c => c == '-')
      (fun a b => ¬((a == '-') = true ∧ (b == '-') = true))
      (fun a b h => fun ⟨h1, h2⟩ => h ⟨h2, h1⟩) _ hchain5
    apply segmentsMatch_of_props
    · intro c hc
      have hc5 := htrim.1 c hc
      rcases mem_collapseRunsAux _ '-' _ false c hc5 with rfl | ⟨hc4, hnd⟩
      · exact Or.inr rfl
      · rcases mem_collapseRunsAux isJsSpace '-' _ false c hc4 with rfl | ⟨hc3, hns⟩
        · exact Or.inr rfl
        · have hmem := List.mem_filter.mp hc3
          have hword : isWordChar c = true := by
            rcases Bool.or_eq_true _ _ |>.mp hmem.2 with h | h
            · rcases Bool.or_eq_true _ _ |>.mp h with h' | h'
              · exact h'
              · rw [h'] at hns
                exact absurd hns (by simp)
            · rw [h] at hnd
              exact absurd hnd (by simp)
          have hlower : ∃ c0, c = Char.toLower c0 := by
            have hc2 := hmem.1
            have hc1 : c ∈ name.data.map Char.toLower := by
              have hsub : ∀ x ∈ trimChars isJsSpace (name.data.map Char.toLower),
                  x ∈ name.data.map Char.toLower := by
                intro x hx
                unfold trimChars at hx
                rw [List.mem_reverse] at hx
                have := (List.dropWhile_suffix _).subset hx
                rw [List.mem_reverse] at this
                exact (List.dropWhile_suffix _).subset this
              exact hsub c hc2
            rcases List.mem_map.mp hc1 with ⟨c0, -, rfl⟩
            exact ⟨c0, rfl⟩
          rcases hlower with ⟨c0, rfl⟩
          have := wordChar_toLower_allowed c0 hword
          rcases Bool.or_eq_true _ _ |>.mp this with h | h
          · exact Or.inl (by simp [h])
          · exact Or.inl (by simp [h])
    · exact (htrim.2.1).imp (fun a b h => by
        intro hab
        exact h ⟨by simp [hab.1], by simp [hab.2]⟩)
    · intro c hc
      have := htrim.2.2.2 c hc
      intro hcontra
      rw [hcontra] at this
      simp at this
    · refine Or.inr ?_
      intro c hc
      have := htrim.2.2.1 c hc
      intro hcontra
      rw [hcontra] at this
      simp at this
    · exact Or.inl hF

end Maginhawa
